import Mathlib

/-!
Verification of the CSON parser in `cson_parser.py` of the
boostnote_legacy_to_obsidian repository.

The Python source is shallowly embedded: strings become `List Char` with
explicit integer indices, Python exceptions become an explicit error type
carried by `Except`, and the mutually recursive token parsers are indexed
by a fuel parameter (the analogue of Python's recursion limit).

Modelling conventions, used throughout:
* `str_input[i]` (unguarded Python indexing) is `pyGet`, which raises
  `PyErr.indexError` out of bounds, exactly as Python raises `IndexError`.
* Guarded accesses of the shape `index < len(s) and s[index]...` are
  modelled with `List.get?`, which cannot fail.
* Python slices `s[a:b]` are `pySlice` (total, clamping, like Python).
* Tuple unpacking of `None` (`i, tok = f(...)` when `f` returned `None`)
  raises `PyErr.typeError`, as Python raises `TypeError`.
* Python's `str.isnumeric`, `str.isspace`, `str.isalpha`, `str.isalnum`
  are modelled by the corresponding ASCII character classes; every input
  in the repository's format and in the claims is ASCII, where the two
  agree.
* A numeric token stores the consumed literal text.  The Python code
  stores `float(text)`; `float` is a deterministic function of the text,
  so equality of the stored texts determines equality of the doubles.
-/

/-- Character strings of the Python source, as lists of characters. -/
abbrev Str := List Char

/-- The double-quote character `"` (delimiter of `CSON_StringToken`). -/
def dq : Char := Char.ofNat 34

/-- The backslash character `\` (escape character in string tokens). -/
def bsl : Char := Char.ofNat 92

/-- The single-quote character, three of which delimit
`CSON_MultiLineStringToken`. -/
def apos : Char := Char.ofNat 39

/-- The errors the Python code can raise during a parse.  The first four
constructors are the parser's own exception classes (`cson_parser.py`
lines 386-418); the last three are built-in Python exceptions that the
code can also raise. -/
inductive PyErr where
  /-- `DelimiterNotFoundError(stop_char, index_from)`: closing sequence
  `stopSeq` was never found; scanning started at `indexFrom` (the index
  just after the opening delimiter). -/
  | delimiterNotFound (stopSeq : Str) (indexFrom : Nat)
  /-- `BrokenTokenError(index, message)`: a token prefix matched at
  `index` but the rest is malformed.  The free-text message is not
  modelled. -/
  | brokenToken (index : Nat)
  /-- `UnknownTokenError(index)`: no candidate token type matched. -/
  | unknownToken (index : Nat)
  /-- `TextEndedPrematurelyError()`: a value was expected, input ended. -/
  | prematureEnd
  /-- Python `IndexError`: unguarded `s[i]` with `i` out of range. -/
  | indexError
  /-- Python `TypeError`: unpacking or comparing `None`. -/
  | typeError
  /-- Python `RecursionError`: the fuel analogue of CPython's recursion
  limit; never reached with adequate fuel. -/
  | recursionError
deriving DecidableEq

/-- Parsed CSON values (the `value` field of the token classes). -/
inductive CsonValue where
  /-- A string token's accumulated characters (`CSON_StringBase.value`). -/
  | str (s : Str)
  /-- A number token; stores the literal text that Python passes to
  `float` (see the modelling note in the file header). -/
  | num (lit : Str)
  /-- A boolean token (`CSON_BooleanToken.value`). -/
  | bool (b : Bool)
  /-- A list token's elements, in consumption order
  (`CSON_ListToken.value`). -/
  | list (xs : List CsonValue)
  /-- A dict token's mapping, as a Python dict: association list in
  insertion order with unique keys (`CSON_DictToken.value`). -/
  | dict (m : List (Str × CsonValue))

instance : Nonempty CsonValue := ⟨.bool true⟩

/-- Results of Python code that can raise. -/
abbrev PResult (α : Type) := Except PyErr α

/-- Unguarded Python indexing `s[i]`: the character, or `IndexError`. -/
def pyGet (s : Str) (i : Nat) : PResult Char :=
  match s[i]? with
  | some c => .ok c
  | none => .error .indexError

/-- Python slicing `s[a:b]` (total; clamps at the ends like Python). -/
def pySlice (s : Str) (a b : Nat) : Str :=
  (s.take b).drop a

/-- Python `str.isnumeric`, restricted to ASCII decimal digits. -/
def py_isnumeric (c : Char) : Bool := c.isDigit

/-- Python `str.isspace`, restricted to ASCII whitespace. -/
def py_isspace (c : Char) : Bool := c.isWhitespace

/-- Python `str.isalpha`, restricted to ASCII letters. -/
def py_isalpha (c : Char) : Bool := c.isAlpha

/-- Python `str.isalnum`, restricted to ASCII letters and digits. -/
def py_isalnum (c : Char) : Bool := c.isAlphanum

/-- `match_ignore_text(str_input, start_index, text_to_match)`
(`cson_parser.py` lines 315-320): if `s[start:]` starts with `t`,
return the index right after the match, else `None`. -/
def match_ignore_text (s : Str) (start : Nat) (t : Str) : Option Nat :=
  if start + t.length ≤ s.length ∧ pySlice s start (start + t.length) = t then
    some (start + t.length)
  else
    none

/-- The shared shape of the three scanning `while` loops of the source
(whitespace, name characters, digits): starting at `i`, advance while
the guarded current character satisfies `p`.  The first argument is an
explicit iteration bound; the wrapper `scan_while` instantiates it with
the exact number of remaining characters, which the loop can never
exceed. -/
def scan_while_loop (p : Char → Bool) : Nat → Str → Nat → Nat
  | 0, _, i => i
  | n + 1, s, i =>
    match s[i]? with
    | some c => if p c then scan_while_loop p n s (i + 1) else i
    | none => i

/-- Advance from `i` while the current character satisfies `p`
(the `while current_index < input_len and p(str_input[current_index])`
loop shape). -/
def scan_while (p : Char → Bool) (s : Str) (i : Nat) : Nat :=
  scan_while_loop p (s.length - i) s i

/-- `ignore_whitespace(str_input, current_index)` (`cson_parser.py`
lines 339-343): advance past consecutive whitespace. -/
def ignore_whitespace (s : Str) (i : Nat) : Nat :=
  scan_while py_isspace s i

/-- `match_ignore_alpha(str_input, index)` (`cson_parser.py`
lines 114-118): succeed iff the character at `index` is alphabetic. -/
def match_ignore_alpha (s : Str) (i : Nat) : Option Nat :=
  match s[i]? with
  | some c => if py_isalpha c then some (i + 1) else none
  | none => none

/-- The character class of the `while` loop of `consume_name`
(`cson_parser.py` line 133): alphanumeric or underscore. -/
def name_char (c : Char) : Bool := py_isalnum c || c = '_'

/-- `consume_name(str_input, start_index)` (`cson_parser.py`
lines 123-142): a key name starts with a letter, continues greedily with
alphanumerics or `_`, and must not equal the keywords `false`/`true`.
Returns the index after the name together with the name text (the
`CSON_NameToken`'s value; its `start_index` field is diagnostic only and
not used by any caller). -/
def consume_name (s : Str) (start : Nat) : Option (Nat × Str) :=
  match match_ignore_alpha s start with
  | none => none
  | some i0 =>
    let i := scan_while name_char s i0
    let name := pySlice s start i
    if name = "false".toList ∨ name = "true".toList then none
    else some (i, name)

/-- The two digit-run `while` loops of `CSON_NumberToken.consume`
(`cson_parser.py` lines 265-266 and 272-273): advance over consecutive
digits starting at `i`. -/
def consume_digits (s : Str) (i : Nat) : Nat :=
  scan_while py_isnumeric s i

/-- The trailing-character check and float conversion at the end of
`CSON_NumberToken.consume` (`cson_parser.py` lines 279-291): the
character after the number must be whitespace, `]`, `}`, or absent;
otherwise `BrokenTokenError`.  The `float()` call cannot raise on a
digits-only slice, so the dead `except ValueError` branch is not
modelled. -/
def number_final (s : Str) (start i : Nat) : PResult (Option (Nat × CsonValue)) :=
  match s[i]? with
  | some c =>
    if ¬ (py_isspace c ∨ c = ']' ∨ c = '}') then .error (.brokenToken start)
    else .ok (some (i, .num (pySlice s start i)))
  | none => .ok (some (i, .num (pySlice s start i)))

/-- `CSON_NumberToken.consume(str_input, start_index)` (`cson_parser.py`
lines 249-291).  Note the first read `str_input[index] == "-"` is
unguarded (IndexError when `start` is out of range); all later reads are
guarded by `index < input_length`. -/
def number_consume (s : Str) (start : Nat) : PResult (Option (Nat × CsonValue)) := do
  -- 1. check whether it is a negative number or not
  let c0 ← pyGet s start
  let index := if c0 = '-' then start + 1 else start
  -- 2. it must start with a digit, else no match
  match s[index]? with
  | none => return none
  | some c1 =>
    if ¬ py_isnumeric c1 then return none
    else
      -- 3. consume all following digits
      let i2 := consume_digits s (index + 1)
      -- 4. consume dot if present
      match s[i2]? with
      | some c2 =>
        if c2 = '.' then
          -- 5./6. at least one digit must follow the dot
          let i3 := consume_digits s (i2 + 1)
          if i3 = i2 + 1 then .error (.brokenToken start)
          else number_final s start i3
        else number_final s start i2
      | none => number_final s start i2

/-- `CSON_BooleanToken.consume(str_input, start_index)` (`cson_parser.py`
lines 299-310): try the literals `false` then `true` (the iteration
order of the `values` dict); each iteration first reads
`str_input[start_index]` unguarded. -/
def boolean_consume (s : Str) (start : Nat) : PResult (Option (Nat × CsonValue)) := do
  let c ← pyGet s start
  if c = 'f' then
    if let some j := match_ignore_text s start ("false".toList) then
      return some (j, .bool false)
  if c = 't' then
    if let some j := match_ignore_text s start ("true".toList) then
      return some (j, .bool true)
  return none

/-- Python dict assignment `m[k] = v`: replace the value in place if the
key is present (keeping its position), otherwise append the new binding
at the end.  This is the semantics of `self.value[key_.value] = value_.value`
in `CSON_DictToken.consume_next_sub_element` (`cson_parser.py` line 183). -/
def pyDictInsert (m : List (Str × CsonValue)) (k : Str) (v : CsonValue) :
    List (Str × CsonValue) :=
  match m with
  | [] => [(k, v)]
  | (k0, v0) :: rest =>
    if k0 = k then (k0, v) :: rest else (k0, v0) :: pyDictInsert rest k v

/-- Python dict lookup `m[k]` (used only in theorem statements). -/
def pyDictLookup (m : List (Str × CsonValue)) (k : Str) : Option CsonValue :=
  match m with
  | [] => none
  | (k0, v0) :: rest => if k0 = k then some v0 else pyDictLookup rest k

/-- The four delimited token classes of `cson_parser.py`: string (`"…"`),
multi-line string (`'''…'''`), list (`[…]`), nested dict (`{…}`). -/
inductive DelimKind where
  | strK
  | mlsK
  | listK
  | dictK
deriving DecidableEq

/-- The class attribute `_DELIMITERS` of each delimited token class
(`cson_parser.py` lines 107, 111, 171, 225): the `(open, close)` pair. -/
def delimOpen : DelimKind → Str
  | .strK => [dq]
  | .mlsK => [apos, apos, apos]
  | .listK => ['[']
  | .dictK => ['{']

/-- The closing delimiter of each delimited token class. -/
def delimClose : DelimKind → Str
  | .strK => [dq]
  | .mlsK => [apos, apos, apos]
  | .listK => [']']
  | .dictK => ['}']

/-- The freshly constructed token value at the top of
`consume_until_end_seq` (`cson_parser.py` line 349): the token classes
default-initialise their `value` to `""`, `[]` or `{}` respectively. -/
def initValue : DelimKind → CsonValue
  | .strK => .str []
  | .mlsK => .str []
  | .listK => .list []
  | .dictK => .dict []

mutual

/-- The per-class `consume_next_sub_element(str_input, start_index)`
methods, dispatched on the token kind, acting on the token's current
accumulated `value`:
* strings (`CSON_StringBase`, `cson_parser.py` lines 90-97): copy one
  character, or a backslash together with the following character,
  verbatim;
* lists (`CSON_ListToken`, lines 236-242): one dispatcher call, append
  the value, skip trailing whitespace (the dispatcher either returns a
  truthy wrapper or raises, so the `return None` fall-through of the
  Python method is dead code);
* dicts (`CSON_DictToken`, lines 178-188): skip whitespace, one
  key/value pair, bind it, skip trailing whitespace; `None` from
  `_consume_key_value` becomes `none`.
The catch-all `typeError` branches model the `TypeError` Python would
raise if a token's `value` had the wrong type; they are unreachable
because the accumulator always matches the kind (see `initValue`). -/
def consume_next_sub_element (fuel0 : Nat) (kind : DelimKind) (s : Str)
    (start : Nat) (acc : CsonValue) : PResult (Option (CsonValue × Nat)) :=
  match fuel0 with
  | 0 => .error .recursionError
  | fuel + 1 =>
    match kind with
    | .strK | .mlsK => do
      let c ← pyGet s start
      match acc with
      | .str v =>
        if c = bsl then
          return some (.str (v ++ pySlice s start (start + 2)), start + 2)
        else
          return some (.str (v ++ [c]), start + 1)
      | _ => .error .typeError
    | .listK => do
      let (j, v) ← cson_gen_next_token fuel s start
      match acc with
      | .list xs => return some (.list (xs ++ [v]), ignore_whitespace s j)
      | _ => .error .typeError
    | .dictK => do
      let i := ignore_whitespace s start
      match ← consume_key_value fuel s i with
      | some (j, k, v) =>
        match acc with
        | .dict m =>
          return some (.dict (pyDictInsert m k v), ignore_whitespace s j)
        | _ => .error .typeError
      | none => return none
termination_by structural fuel0

/-- `CSON_DictToken._consume_key_value(str_input, start_index)`
(`cson_parser.py` lines 206-221).  The Python body begins with
`i, name_token = consume_name(str_input, start_index)`; when
`consume_name` returns `None` this unpacking raises `TypeError`, which
the embedding records as `PyErr.typeError`. -/
def consume_key_value (fuel0 : Nat) (s : Str) (start : Nat) :
    PResult (Option (Nat × Str × CsonValue)) :=
  match fuel0 with
  | 0 => .error .recursionError
  | fuel + 1 =>
    match consume_name s start with
    | none => .error .typeError
    | some (i0, name) => do
      let i := ignore_whitespace s i0
      if i = s.length then
        return none
      else
        let c ← pyGet s i
        if c = ':' then do
          let (j, v) ← cson_gen_next_token fuel s (i + 1)
          return some (j, name, v)
        else
          return none
termination_by structural fuel0

/-- `cson_gen_next_token(str_input, i, subtoken_types)` (`cson_parser.py`
lines 324-336) with `subtoken_types` fixed to
`CSON_TokenCompositeBase._SUBTOKEN_TYPES`, the list assigned in `init()`
(lines 378-380): `[List, Dict, String, MultiLineString, Number,
Boolean]`, tried in that order.  A `ParserResultWrapper` is a non-empty
tuple and hence always truthy, so the walrus test takes the first
non-`None` result; errors raised by a candidate propagate through the
`Except` bind. -/
def cson_gen_next_token (fuel0 : Nat) (s : Str) (i0 : Nat) :
    PResult (Nat × CsonValue) :=
  match fuel0 with
  | 0 => .error .recursionError
  | fuel + 1 =>
    let i := ignore_whitespace s i0
    if s.length ≤ i then .error .prematureEnd
    else do
      match ← token_consume fuel .listK s i with
      | some r => return r
      | none =>
      match ← token_consume fuel .dictK s i with
      | some r => return r
      | none =>
      match ← token_consume fuel .strK s i with
      | some r => return r
      | none =>
      match ← token_consume fuel .mlsK s i with
      | some r => return r
      | none =>
      match ← number_consume s i with
      | some r => return r
      | none =>
      match ← boolean_consume s i with
      | some r => return r
      | none => .error (.unknownToken i)
termination_by structural fuel0

/-- `consume_delimited_generic(token_type, str_input, start_index)`
(`cson_parser.py` lines 153-159), the shared `consume` of
`DelimitedPolicyMixin`: match the opening delimiter (no match → `None`),
then scan for the closing sequence. -/
def token_consume (fuel0 : Nat) (kind : DelimKind) (s : Str) (start : Nat) :
    PResult (Option (Nat × CsonValue)) :=
  match fuel0 with
  | 0 => .error .recursionError
  | fuel + 1 =>
    match match_ignore_text s start (delimOpen kind) with
    | some index => do
      let r ← consume_until_end_seq fuel kind s index
      return some r
    | none => return none
termination_by structural fuel0

/-- `consume_until_end_seq(str_input, start_index, end_seq, token_type)`
(`cson_parser.py` lines 348-367), entry: construct the empty token value
and run the scanning loop from `start_index`. -/
def consume_until_end_seq (fuel0 : Nat) (kind : DelimKind) (s : Str)
    (start : Nat) : PResult (Nat × CsonValue) :=
  match fuel0 with
  | 0 => .error .recursionError
  | fuel + 1 =>
    consume_until_loop fuel kind s start start (initValue kind)
termination_by structural fuel0

/-- The `while j <= max_comparison_index` loop of
`consume_until_end_seq`, with the loop state `(j, accumulated value)`
explicit.  `max_comparison_index = len(str_input) - seq_len` is computed
in ℤ, as in Python (it is never negative on reachable inputs, where the
equally long opening delimiter has already matched).  Finding `end_seq`
at `j` breaks out and returns `j + seq_len`; a falsy (`None` or `0`)
sub-element result raises `BrokenTokenError(start_index, …)`; loop
exhaustion raises `DelimiterNotFoundError(end_seq, start_index)`. -/
def consume_until_loop (fuel0 : Nat) (kind : DelimKind) (s : Str)
    (start j : Nat) (acc : CsonValue) : PResult (Nat × CsonValue) :=
  match fuel0 with
  | 0 => .error .recursionError
  | fuel + 1 =>
    let end_seq := delimClose kind
    if (j : Int) ≤ (s.length : Int) - (end_seq.length : Int) then
      match match_ignore_text s j end_seq with
      | some _ => .ok (j + end_seq.length, acc)
      | none => do
        match ← consume_next_sub_element fuel kind s j acc with
        | some (acc2, j2) =>
          if j2 = 0 then .error (.brokenToken start)
          else consume_until_loop fuel kind s start j2 acc2
        | none => .error (.brokenToken start)
    else
      .error (.delimiterNotFound end_seq start)
termination_by structural fuel0

end

/-- The `while j < input_length` loop of
`CSON_DictToken.consume_document` (`cson_parser.py` lines 201-202).
When `consume_next_sub_element` returns `None`, the next loop-condition
check `None < input_length` raises `TypeError` in Python 3, recorded as
`PyErr.typeError`. -/
def consume_document_loop (fuel0 : Nat) (s : Str) (j : Nat)
    (m : List (Str × CsonValue)) : PResult (List (Str × CsonValue)) :=
  match fuel0 with
  | 0 => .error .recursionError
  | fuel + 1 =>
    if j < s.length then do
      match ← consume_next_sub_element fuel .dictK s j (.dict m) with
      | some (.dict m2, j2) => consume_document_loop fuel s j2 m2
      | some _ => .error .typeError
      | none => .error .typeError
    else
      .ok m

/-- `CSON_DictToken.consume_document(str_input)` (`cson_parser.py`
lines 191-204): the top-level document is a delimiter-less dict; skip
leading whitespace, return the empty dict for empty input, otherwise
consume key/value pairs until the end of input. -/
def consume_document (fuel : Nat) (s : Str) : PResult (List (Str × CsonValue)) :=
  let j := ignore_whitespace s 0
  if s.length = 0 then .ok []
  else consume_document_loop fuel s j []

/-- `parse_cson(str_input)` (`cson_parser.py` lines 370-371), the
public entry point. -/
def parse_cson (fuel : Nat) (s : Str) : PResult (List (Str × CsonValue)) :=
  consume_document fuel s

/-! ## Definitions used only in claim statements -/

/-- The dispatcher's fixed candidate order
(`CSON_TokenCompositeBase._SUBTOKEN_TYPES`, assigned in `init()`,
`cson_parser.py` lines 378-380), as a function from the candidate's
position in the list to its consume operation.  Used to state the claim
about the dispatcher. -/
def candidate_consume (fuel : Nat) (k : Nat) (s : Str) (i : Nat) :
    PResult (Option (Nat × CsonValue)) :=
  match k with
  | 0 => token_consume fuel .listK s i
  | 1 => token_consume fuel .dictK s i
  | 2 => token_consume fuel .strK s i
  | 3 => token_consume fuel .mlsK s i
  | 4 => number_consume s i
  | _ => boolean_consume s i

/-- The number-literal pattern `-?\\d+(\\.\\d+)?` of the spec (§4.3/§8),
decomposed as optional sign, mandatory digit run, optional dot plus
mandatory digit run.  Used to state the claims about
`CSON_NumberToken.consume`. -/
def IsNumberLit (N : Str) : Prop :=
  ∃ sign ds frac,
    (sign = [] ∨ sign = ['-']) ∧
    ds ≠ [] ∧ (∀ c ∈ ds, c.isDigit = true) ∧
    (frac = [] ∨ ∃ fs, frac = '.' :: fs ∧ fs ≠ [] ∧ (∀ c ∈ fs, c.isDigit = true)) ∧
    N = sign ++ (ds ++ frac)

/-- A character that may legally follow a number literal
(`cson_parser.py` line 281): whitespace or a closing bracket. -/
def isNumTerminator (c : Char) : Prop :=
  c.isWhitespace = true ∨ c = ']' ∨ c = '}'

/-- Closed-form specification of `consume_name`, following the words of
the spec (§4.2): a maximal run starting with an alphabetic character and
continuing greedily with alphanumerics or underscore, rejected when it
equals the keyword `false` or `true`.  Compared with the source-derived
`consume_name` in the C8 theorem. -/
def name_spec (s : Str) (start : Nat) : Option (Nat × Str) :=
  match s.drop start with
  | [] => none
  | c :: t =>
    if c.isAlpha then
      let run := c :: t.takeWhile name_char
      if run = "false".toList ∨ run = "true".toList then none
      else some (start + run.length, run)
    else none

/-! ## Library lemmas about indexing, slices and scans

These connect the index-based definitions above with the structural view
of the input as `s.drop i`, on which the claim proofs do induction. -/

theorem getElem?_lt_length {s : Str} {i : Nat} {c : Char} (h : s[i]? = some c) :
    i < s.length := by
  by_contra hc
  rw [List.getElem?_eq_none_iff.mpr (by omega)] at h
  exact Option.noConfusion h

theorem drop_cons_of_getElem? {s : Str} {i : Nat} {c : Char} (h : s[i]? = some c) :
    s.drop i = c :: s.drop (i + 1) := by
  have hh : (s.drop i).head? = some c := by rw [List.head?_drop]; exact h
  cases hd : s.drop i with
  | nil => rw [hd] at hh; exact Option.noConfusion hh
  | cons x t =>
    rw [hd] at hh
    have hx : x = c := by simpa using hh
    have ht : t = s.drop (i + 1) := by
      have := List.tail_drop s i
      rw [hd] at this
      simpa using this
    rw [hx, ht]

theorem drop_nil_of_getElem? {s : Str} {i : Nat} (h : s[i]? = none) :
    s.drop i = [] := by
  apply List.head?_eq_none_iff.mp
  rw [List.head?_drop]; exact h

theorem length_takeWhile_le_length (p : Char → Bool) (l : Str) :
    (l.takeWhile p).length ≤ l.length := by
  induction l with
  | nil => simp
  | cons c t ih =>
    simp only [List.takeWhile_cons]
    split
    · simpa using ih
    · simp

theorem scan_while_loop_closed (p : Char → Bool) :
    ∀ (n : Nat) (s : Str) (i : Nat), s.length - i ≤ n →
      scan_while_loop p n s i = i + ((s.drop i).takeWhile p).length := by
  intro n
  induction n with
  | zero =>
    intro s i h
    have : s[i]? = none := List.getElem?_eq_none_iff.mpr (by omega)
    rw [drop_nil_of_getElem? this]
    simp [scan_while_loop]
  | succ n ih =>
    intro s i h
    cases hc : s[i]? with
    | none =>
      rw [drop_nil_of_getElem? hc]
      simp [scan_while_loop, hc]
    | some c =>
      have hlt : i < s.length := getElem?_lt_length hc
      rw [drop_cons_of_getElem? hc]
      by_cases hp : p c
      · have ihs := ih s (i + 1) (by omega)
        simp only [scan_while_loop, hc, hp, if_true, List.takeWhile_cons, hp]
        rw [ihs]
        simp only [List.length_cons]
        omega
      · simp only [scan_while_loop, hc, hp, if_false, List.takeWhile_cons]
        simp [hp]

theorem scan_while_closed (p : Char → Bool) (s : Str) (i : Nat) :
    scan_while p s i = i + ((s.drop i).takeWhile p).length :=
  scan_while_loop_closed p (s.length - i) s i (Nat.le_refl _)

theorem le_scan_while (p : Char → Bool) (s : Str) (i : Nat) :
    i ≤ scan_while p s i := by
  rw [scan_while_closed]; omega

theorem scan_while_le_length (p : Char → Bool) (s : Str) (i : Nat)
    (h : i ≤ s.length) : scan_while p s i ≤ s.length := by
  rw [scan_while_closed]
  have h1 := length_takeWhile_le_length p (s.drop i)
  have h2 : (s.drop i).length = s.length - i := List.length_drop i s
  omega

theorem drop_length_takeWhile (p : Char → Bool) :
    ∀ t : Str, t.drop ((t.takeWhile p).length) = t.dropWhile p := by
  intro t
  induction t with
  | nil => simp
  | cons c t ih =>
    simp only [List.takeWhile_cons, List.dropWhile_cons]
    by_cases hp : p c
    · simpa [hp] using ih
    · simp [hp]

theorem scan_while_getElem? (p : Char → Bool) (s : Str) (i : Nat) :
    s[scan_while p s i]? = ((s.drop i).dropWhile p).head? := by
  rw [scan_while_closed]
  rw [← List.getElem?_drop]
  rw [← drop_length_takeWhile p (s.drop i), List.head?_drop]

theorem head?_dropWhile_false {p : Char → Bool} :
    ∀ {t : Str} {c : Char}, (t.dropWhile p).head? = some c → p c = false := by
  intro t
  induction t with
  | nil => intro c h; exact Option.noConfusion h
  | cons d t ih =>
    intro c h
    by_cases hp : p d
    · rw [List.dropWhile_cons, if_pos hp] at h
      exact ih h
    · rw [List.dropWhile_cons, if_neg hp] at h
      have : d = c := by simpa using h
      subst this
      simpa using hp

/-! Slices. -/

theorem pySlice_eq_take_drop (s : Str) (a b : Nat) :
    pySlice s a b = (s.drop a).take (b - a) := by
  simp [pySlice, List.drop_take]

theorem pySlice_self (s : Str) (a : Nat) : pySlice s a a = [] := by
  rw [pySlice_eq_take_drop]; simp

theorem pySlice_append_slice {s : Str} {a b c : Nat} (h1 : a ≤ b) (h2 : b ≤ c) :
    pySlice s a b ++ pySlice s b c = pySlice s a c := by
  rw [pySlice_eq_take_drop, pySlice_eq_take_drop, pySlice_eq_take_drop]
  have hd : s.drop b = (s.drop a).drop (b - a) := by
    rw [List.drop_drop]
    congr 1
    omega
  rw [hd]
  have : c - a = (b - a) + (c - b) := by omega
  rw [this, List.take_add]

theorem pySlice_singleton {s : Str} {a : Nat} {c : Char} (h : s[a]? = some c) :
    pySlice s a (a + 1) = [c] := by
  rw [pySlice_eq_take_drop, drop_cons_of_getElem? h]
  simp

theorem pySlice_left_of_append (l r : Str) : pySlice (l ++ r) 0 l.length = l := by
  simp [pySlice, List.take_left]

theorem pySlice_length {s : Str} {a b : Nat} (h : b ≤ s.length) (hab : a ≤ b) :
    (pySlice s a b).length = b - a := by
  rw [pySlice_eq_take_drop]
  rw [List.length_take]
  rw [List.length_drop]
  omega

/-! `match_ignore_text`. -/

theorem match_ignore_text_some {s t : Str} {i j : Nat} :
    match_ignore_text s i t = some j ↔
      j = i + t.length ∧ i + t.length ≤ s.length ∧ pySlice s i (i + t.length) = t := by
  unfold match_ignore_text
  split
  · rename_i h
    simp only [Option.some_inj]
    constructor
    · intro hj; exact ⟨hj.symm, h.1, h.2⟩
    · intro ⟨hj, _, _⟩; exact hj.symm
  · rename_i h
    rw [not_and_or] at h
    constructor
    · intro hh; exact Option.noConfusion hh
    · intro ⟨_, h2, h3⟩
      rcases h with h | h
      · exact absurd h2 h
      · exact absurd h3 h

theorem match_ignore_text_at_prefix (pre t rest : Str) :
    match_ignore_text (pre ++ (t ++ rest)) pre.length t =
      some (pre.length + t.length) := by
  rw [match_ignore_text_some]
  refine ⟨rfl, by simp, ?_⟩
  have h1 : (pre ++ (t ++ rest)).drop pre.length = t ++ rest := List.drop_left pre (t ++ rest)
  rw [pySlice_eq_take_drop, h1]
  simp [List.take_left]

theorem head?_take {l : Str} {n : Nat} (h : 0 < n) : (l.take n).head? = l.head? := by
  cases l with
  | nil => simp
  | cons c t =>
    cases n with
    | zero => omega
    | succ n => simp

theorem match_ignore_text_none_of_head {s t : Str} {i : Nat} {c d : Char}
    (hs : s[i]? = some c) (ht : t.head? = some d) (hne : c ≠ d) :
    match_ignore_text s i t = none := by
  cases hm : match_ignore_text s i t with
  | none => rfl
  | some j =>
    exfalso
    rw [match_ignore_text_some] at hm
    obtain ⟨_, _, hsl⟩ := hm
    have hlen : 0 < t.length := by
      cases t with
      | nil => exact Option.noConfusion ht
      | cons x xs => simp
    have : (pySlice s i (i + t.length)).head? = t.head? := by rw [hsl]
    rw [pySlice_eq_take_drop] at this
    rw [head?_take (by omega)] at this
    rw [List.head?_drop] at this
    rw [hs, ht] at this
    exact hne (by simpa using this)

/-! Reduction lemmas for the `Except` monad, used to step through the
`do`-blocks of the embedded functions in proofs. -/

@[simp] theorem except_bind_ok {α β ε : Type} (a : α) (f : α → Except ε β) :
    (Except.ok a : Except ε α) >>= f = f a := rfl

@[simp] theorem except_bind_error {α β ε : Type} (e : ε) (f : α → Except ε β) :
    (Except.error e : Except ε α) >>= f = .error e := rfl

@[simp] theorem except_pure {α ε : Type} (a : α) : (pure a : Except ε α) = .ok a := rfl

@[simp] theorem except_throw {α ε : Type} (e : ε) : (throw e : Except ε α) = .error e := rfl

/-! Scans over decomposed input. -/

theorem takeWhile_append_all {p : Char → Bool} :
    ∀ {l r : Str}, (∀ c ∈ l, p c = true) → (l ++ r).takeWhile p = l ++ r.takeWhile p := by
  intro l
  induction l with
  | nil => intro r _; simp
  | cons c t ih =>
    intro r h
    have hc : p c = true := h c (by simp)
    simp only [List.cons_append, List.takeWhile_cons, hc, if_true]
    rw [ih (fun d hd => h d (by simp [hd]))]

/-- `scan_while` on input `pre ++ mid ++ rest`, started at the end of
`pre`, where every character of `mid` satisfies `p` and `rest` is empty
or starts with a character failing `p`: it stops exactly at the end of
`mid`. -/
theorem scan_while_append (p : Char → Bool) (pre mid rest : Str)
    (hmid : ∀ c ∈ mid, p c = true)
    (hrest : rest = [] ∨ ∃ c rest2, rest = c :: rest2 ∧ p c = false) :
    scan_while p (pre ++ (mid ++ rest)) pre.length = pre.length + mid.length := by
  rw [scan_while_closed]
  rw [List.drop_left]
  rw [takeWhile_append_all hmid]
  have : rest.takeWhile p = [] := by
    rcases hrest with h | ⟨c, rest2, hr, hc⟩
    · simp [h]
    · simp [hr, List.takeWhile_cons, hc]
  rw [this]
  simp

theorem getElem?_at_append (pre : Str) (x : Char) (rest : Str) :
    (pre ++ (x :: rest))[pre.length]? = some x := by
  rw [List.getElem?_append_right (Nat.le_refl _)]
  simp

theorem getElem?_at_append_end (pre : Str) :
    (pre ++ ([] : Str))[pre.length]? = none := by
  simp

/-! Character-class facts used by the number-token proofs. -/

theorem isDigit_false_of_isWhitespace {c : Char} (h : c.isWhitespace = true) :
    c.isDigit = false := by
  simp only [Char.isWhitespace, Bool.or_eq_true, decide_eq_true_eq] at h
  rcases h with ((h | h) | h) | h <;> subst h <;> decide

theorem isWhitespace_ne_dot {c : Char} (h : c.isWhitespace = true) : c ≠ '.' := by
  intro hc
  subst hc
  simp [Char.isWhitespace] at h

theorem take_length_takeWhile (p : Char → Bool) (t : Str) :
    t.take ((t.takeWhile p).length) = t.takeWhile p :=
  (List.prefix_iff_eq_take.mp (List.takeWhile_prefix p)).symm

/-! ## Claims -/

/-- C1: the claim states that every failing `parse_cson` raises one of
the four error kinds of §7 (Delimiter-not-found, Broken-token,
Unknown-token, Premature-end-of-input).  The code violates this: when
the character at a key position cannot start a name (e.g. the input
`,`, or a digit), `_consume_key_value` unpacks the `None` returned by
`consume_name` and Python raises `TypeError` instead.  The repository's
own test suite expects `BrokenTokenError` when consuming the dict body
`{"" , 10}`, where the code likewise raises `TypeError`, so the claim
matches the documented intent and the code is in error. -/
theorem c1_python_type_error_escapes_parse :
    parse_cson 50 (",".toList) = .error .typeError ∧
    parse_cson 50 ("1".toList) = .error .typeError ∧
    token_consume 50 .dictK ('{' :: dq :: dq :: " , 10\x7d".toList) 0 = .error .typeError :=
  ⟨rfl, rfl, rfl⟩

/-- C5: consuming `{ price: 5. }` as a dict token (exactly as the
repository's `test_dict_consume` does), or parsing it at a value
position through the dispatcher, raises Broken-token at index 9, the
start of the number `5.` whose dot is followed by no digit. -/
theorem c5_dot_without_digit_is_broken_token :
    token_consume 50 .dictK ("{ price: 5. }".toList) 0 = .error (.brokenToken 9) ∧
    cson_gen_next_token 50 ("{ price: 5. }".toList) 0 = .error (.brokenToken 9) :=
  ⟨rfl, rfl⟩

/-- C8: `consume_name` agrees everywhere with its closed-form
specification `name_spec`: it succeeds exactly on the maximal run that
starts with an alphabetic character and continues greedily with
alphanumerics or underscore, and returns no match (never an error) when
that run equals the keyword `true` or `false` — so `true` and `false`
can never be dict keys. -/
theorem c8_consume_name_matches_name_spec :
    ∀ (s : Str) (start : Nat), consume_name s start = name_spec s start := by
  intro s start
  unfold consume_name name_spec match_ignore_alpha
  cases hc : s[start]? with
  | none =>
    rw [drop_nil_of_getElem? hc]
  | some c =>
    rw [drop_cons_of_getElem? hc]
    by_cases ha : py_isalpha c
    · have ha' : c.isAlpha = true := ha
      simp only [ha, ha', if_true]
      have hscan : scan_while name_char s (start + 1) =
          (start + 1) + ((s.drop (start + 1)).takeWhile name_char).length :=
        scan_while_closed name_char s (start + 1)
      have harith : (start + 1) + ((s.drop (start + 1)).takeWhile name_char).length - start
          = 1 + ((s.drop (start + 1)).takeWhile name_char).length := by omega
      have hslice : pySlice s start (scan_while name_char s (start + 1)) =
          c :: (s.drop (start + 1)).takeWhile name_char := by
        rw [hscan, pySlice_eq_take_drop, harith, drop_cons_of_getElem? hc]
        rw [List.take_cons (by omega)]
        rw [show 1 + ((s.drop (start + 1)).takeWhile name_char).length - 1
            = ((s.drop (start + 1)).takeWhile name_char).length from by omega]
        rw [take_length_takeWhile]
      rw [hslice, hscan]
      simp only [List.length_cons]
      have : start + 1 + ((s.drop (start + 1)).takeWhile name_char).length
          = start + (((s.drop (start + 1)).takeWhile name_char).length + 1) := by omega
      rw [this]
    · have ha' : c.isAlpha = false := by simpa [py_isalpha] using ha
      simp [ha, ha']

theorem isDigit_false_of_terminator {c : Char} (h : isNumTerminator c) :
    c.isDigit = false := by
  rcases h with h | h | h
  · exact isDigit_false_of_isWhitespace h
  · subst h; decide
  · subst h; decide

theorem ne_dot_of_terminator {c : Char} (h : isNumTerminator c) : c ≠ '.' := by
  rcases h with h | h | h
  · exact isWhitespace_ne_dot h
  · subst h; decide
  · subst h; decide

theorem number_final_at_end (N rest : Str)
    (hrest : rest = [] ∨ ∃ c rest2, rest = c :: rest2 ∧ isNumTerminator c) :
    number_final (N ++ rest) 0 N.length = .ok (some (N.length, .num N)) := by
  rcases hrest with rfl | ⟨c, rest2, rfl, hc⟩
  · simp only [number_final, getElem?_at_append_end]
    rw [pySlice_left_of_append]
  · have h1 : py_isspace c = true ∨ c = ']' ∨ c = '}' := hc
    simp only [number_final, getElem?_at_append]
    rw [if_neg (not_not_intro h1)]
    rw [pySlice_left_of_append]

theorem number_final_broken (N : Str) {c : Char} (rest2 : Str)
    (hc : ¬ isNumTerminator c) :
    number_final (N ++ (c :: rest2)) 0 N.length = .error (.brokenToken 0) := by
  have h1 : ¬ (py_isspace c = true ∨ c = ']' ∨ c = '}') := hc
  simp only [number_final, getElem?_at_append]
  rw [if_pos h1]

theorem number_consume_reaches_final (N rest : Str) (h : IsNumberLit N)
    (hrest : rest = [] ∨ ∃ c rest2, rest = c :: rest2 ∧ c.isDigit = false ∧ c ≠ '.') :
    number_consume (N ++ rest) 0 = number_final (N ++ rest) 0 N.length := by
  obtain ⟨sign, ds, frac, hsign, hds_ne, hds, hfrac, hN⟩ := h
  obtain ⟨d, ds', rfl⟩ : ∃ d ds', ds = d :: ds' := by
    cases ds with
    | nil => exact absurd rfl hds_ne
    | cons d ds' => exact ⟨d, ds', rfl⟩
  have hd : d.isDigit = true := hds d (by simp)
  have hdne : ¬ (d = '-') := by
    intro hh
    rw [hh] at hd
    exact absurd hd (by decide)
  have hm1 : ∀ c ∈ ds', py_isnumeric c = true := fun c hc => hds c (by simp [hc])
  have hrest_nd : rest = [] ∨ ∃ c r2, rest = c :: r2 ∧ py_isnumeric c = false := by
    rcases hrest with rfl | ⟨c, r2, rfl, hcd, _⟩
    · exact Or.inl rfl
    · exact Or.inr ⟨c, r2, rfl, hcd⟩
  have hfr_nd : frac ++ rest = [] ∨
      ∃ c r2, frac ++ rest = c :: r2 ∧ py_isnumeric c = false := by
    rcases hfrac with rfl | ⟨fs, rfl, _, _⟩
    · simpa using hrest_nd
    · exact Or.inr ⟨'.', fs ++ rest, by simp, by decide⟩
  -- index of the end of the integer digit run
  have hscan1 : consume_digits (N ++ rest) ((sign ++ [d]).length) =
      (sign ++ [d]).length + ds'.length := by
    have hsc := scan_while_append py_isnumeric (sign ++ [d]) ds' (frac ++ rest) hm1 hfr_nd
    rw [show (sign ++ [d]) ++ (ds' ++ (frac ++ rest)) = N ++ rest from by
      rw [hN]; simp] at hsc
    exact hsc
  -- character just after the whole literal
  have hafter : (N ++ rest)[N.length]? = rest.head? := by
    rw [List.getElem?_append_right (Nat.le_refl _)]
    simp [List.head?_eq_getElem?]
  rcases hfrac with rfl | ⟨fs, rfl, hfs_ne, hfs⟩
  · -- frac = []: the integer run ends at N.length
    have hC0 : consume_digits (N ++ rest) ((sign ++ [d]).length) = N.length := by
      rw [hscan1, hN]
      simp only [List.length_append, List.length_cons, List.length_nil,
        List.append_nil]
      omega
    rcases hsign with rfl | rfl
    · have h0 : (N ++ rest)[0]? = some d := by rw [hN]; simp
      have hC : consume_digits (N ++ rest) 1 = N.length := by
        simpa using hC0
      rcases hrest_nd with rfl | ⟨c, r2, rfl, hcd⟩
      · have h0' : N[0]? = some d := by simpa using h0
        have hC' : consume_digits N 1 = N.length := by simpa using hC
        have hnone : N[N.length]? = none :=
          List.getElem?_eq_none_iff.mpr (Nat.le_refl _)
        simp only [List.append_nil]
        simp [number_consume, pyGet, h0', hdne, hC', py_isnumeric, hd, hnone]
      · have hcc : (N ++ (c :: r2))[N.length]? = some c := by simpa using hafter
        have hcdot : ¬ (c = '.') := by
          rcases hrest with h' | ⟨c', r2', hh, _, hdot⟩
          · exact absurd h' (by simp)
          · injection hh with hh1 hh2
            rw [← hh1] at hdot
            exact hdot
        simp [number_consume, pyGet, h0, hdne, hC, py_isnumeric, hd, hcc, hcdot]
    · have h0 : (N ++ rest)[0]? = some '-' := by rw [hN]; simp
      have h1 : (N ++ rest)[1]? = some d := by rw [hN]; simp
      have hC : consume_digits (N ++ rest) 2 = N.length := by simpa using hC0
      rcases hrest_nd with rfl | ⟨c, r2, rfl, hcd⟩
      · have h0' : N[0]? = some '-' := by simpa using h0
        have h1' : N[1]? = some d := by simpa using h1
        have hC' : consume_digits N 2 = N.length := by simpa using hC
        have hnone : N[N.length]? = none :=
          List.getElem?_eq_none_iff.mpr (Nat.le_refl _)
        simp only [List.append_nil]
        simp [number_consume, pyGet, h0', h1', hC', py_isnumeric, hd, hnone]
      · have hcc : (N ++ (c :: r2))[N.length]? = some c := by simpa using hafter
        have hcdot : ¬ (c = '.') := by
          rcases hrest with h' | ⟨c', r2', hh, _, hdot⟩
          · exact absurd h' (by simp)
          · injection hh with hh1 hh2
            rw [← hh1] at hdot
            exact hdot
        simp [number_consume, pyGet, h0, h1, hC, py_isnumeric, hd, hcc, hcdot]
  · -- frac = '.' :: fs
    have hfs_len : 0 < fs.length := List.length_pos.mpr hfs_ne
    -- the dot sits right after the integer run
    have hdot_at : (N ++ rest)[(sign ++ [d]).length + ds'.length]? = some '.' := by
      rw [show (sign ++ [d]).length + ds'.length = (sign ++ (d :: ds')).length from by
        simp; omega]
      rw [show N ++ rest = (sign ++ (d :: ds')) ++ ('.' :: (fs ++ rest)) from by
        rw [hN]; simp]
      exact getElem?_at_append _ _ _
    -- the fractional digit run ends at N.length
    have hm2 : ∀ c ∈ fs, py_isnumeric c = true := fun c hc => hfs c hc
    have hscan2 : consume_digits (N ++ rest) ((sign ++ [d]).length + ds'.length + 1) =
        N.length := by
      have hsc := scan_while_append py_isnumeric (sign ++ ((d :: ds') ++ ['.'])) fs rest hm2
        hrest_nd
      rw [show (sign ++ ((d :: ds') ++ ['.'])) ++ (fs ++ rest) = N ++ rest from by
        rw [hN]; simp] at hsc
      rw [show (sign ++ ((d :: ds') ++ ['.'])).length
          = (sign ++ [d]).length + ds'.length + 1 from by simp; omega] at hsc
      rw [show (sign ++ [d]).length + ds'.length + 1 + fs.length = N.length from by
        rw [hN]
        simp only [List.length_append, List.length_cons, List.length_nil]
        omega] at hsc
      exact hsc
    have hne3 : ¬ (N.length = (sign ++ [d]).length + ds'.length + 1) := by
      rw [hN]
      simp only [List.length_append, List.length_cons, List.length_nil]
      omega
    rcases hsign with rfl | rfl
    · have h0 : (N ++ rest)[0]? = some d := by rw [hN]; simp
      have hC : consume_digits (N ++ rest) 1 = 1 + ds'.length := by
        simpa using hscan1
      have hdot' : (N ++ rest)[1 + ds'.length]? = some '.' := by simpa using hdot_at
      have hscan2' : consume_digits (N ++ rest) (1 + ds'.length + 1) = N.length := by
        simpa using hscan2
      have hne3' : ¬ (N.length = 1 + ds'.length + 1) := by simpa using hne3
      simp [number_consume, pyGet, h0, hdne, hC, py_isnumeric, hd, hdot',
        hscan2', hne3']
    · have h0 : (N ++ rest)[0]? = some '-' := by rw [hN]; simp
      have h1 : (N ++ rest)[1]? = some d := by rw [hN]; simp
      have hC : consume_digits (N ++ rest) 2 = 2 + ds'.length := by
        simpa using hscan1
      have hdot' : (N ++ rest)[2 + ds'.length]? = some '.' := by simpa using hdot_at
      have hscan2' : consume_digits (N ++ rest) (2 + ds'.length + 1) = N.length := by
        simpa using hscan2
      have hne3' : ¬ (N.length = 2 + ds'.length + 1) := by simpa using hne3
      simp [number_consume, pyGet, h0, h1, hC, py_isnumeric, hd, hdot',
        hscan2', hne3']

/-- C2 (counterexample): the claim asserts Broken-token for a number
literal followed by ANY character other than whitespace, end, `]`, `}`.
A following digit refutes it: `1` is such a literal and `2` such a
character, yet parsing `12 ` succeeds (the digit simply extends the
consumed run, producing the value 12.0). -/
theorem c2_counterexample_digit_extends_run :
    IsNumberLit ['1'] ∧ ¬ isNumTerminator '2' ∧
    number_consume ("12 ".toList) 0 = .ok (some (2, .num ['1', '2'])) := by
  refine ⟨⟨[], ['1'], [], Or.inl rfl, by simp, by decide, Or.inl rfl, rfl⟩, ?_, rfl⟩
  unfold isNumTerminator
  decide

/-- C2 (amended): for every literal `N` matching `-?\d+(\.\d+)?`,
(a) if `N` is followed by end of input or by whitespace/`]`/`}`, parsing
at a value position succeeds, consuming exactly `N` and storing exactly
the text `N` (hence the value is exactly `float(N)`, the double value of
`N`); (b) if `N` is followed by any character that is not such a
terminator and also cannot extend the numeric run (not a digit and not a
dot), parsing raises Broken-token at the start of the literal. -/
theorem c2_number_token_value_and_broken_token (N rest : Str) (h : IsNumberLit N) :
    ((rest = [] ∨ ∃ c rest2, rest = c :: rest2 ∧ isNumTerminator c) →
      number_consume (N ++ rest) 0 = .ok (some (N.length, .num N))) ∧
    (∀ c rest2, rest = c :: rest2 → ¬ isNumTerminator c → c.isDigit = false →
      c ≠ '.' → number_consume (N ++ rest) 0 = .error (.brokenToken 0)) := by
  constructor
  · intro hterm
    have hr : rest = [] ∨ ∃ c r2, rest = c :: r2 ∧ c.isDigit = false ∧ c ≠ '.' := by
      rcases hterm with rfl | ⟨c, r2, rfl, hc⟩
      · exact Or.inl rfl
      · exact Or.inr ⟨c, r2, rfl, isDigit_false_of_terminator hc,
          ne_dot_of_terminator hc⟩
    rw [number_consume_reaches_final N rest h hr]
    exact number_final_at_end N rest hterm
  · intro c r2 hr hterm hdig hdot
    subst hr
    rw [number_consume_reaches_final N _ h (Or.inr ⟨c, r2, rfl, hdig, hdot⟩)]
    exact number_final_broken N r2 hterm

/-- C2 (witness): the amended theorem applied to the concrete literals
of the repository's own number test cases: `-1.23 \n` parses to the
value `-1.23` and `1.23f` raises Broken-token. -/
theorem c2_number_token_witness :
    number_consume ("-1.23 \n".toList) 0 = .ok (some (5, .num "-1.23".toList)) ∧
    number_consume ("1.23f".toList) 0 = .error (.brokenToken 0) := by
  constructor
  · exact (c2_number_token_value_and_broken_token ("-1.23".toList) (" \n".toList)
      ⟨['-'], ['1'], ['.', '2', '3'], Or.inr rfl, by simp, by decide,
        Or.inr ⟨['2', '3'], rfl, by simp, by decide⟩, rfl⟩).1
      (Or.inr ⟨' ', ['\n'], rfl, Or.inl (by decide)⟩)
  · exact (c2_number_token_value_and_broken_token ("1.23".toList) ("f".toList)
      ⟨[], ['1'], ['.', '2', '3'], Or.inl rfl, by simp, by decide,
        Or.inr ⟨['2', '3'], rfl, by simp, by decide⟩, rfl⟩).2
      'f' [] rfl (by unfold isNumTerminator; decide) (by decide) (by decide)

/-- One string sub-element step, for both string kinds: copy the
character, or the backslash pair, verbatim. -/
theorem consume_next_sub_element_str (f : Nat) (kind : DelimKind)
    (hk : kind = .strK ∨ kind = .mlsK) (s : Str) (j : Nat) (a : Str) :
    consume_next_sub_element (f + 1) kind s j (.str a) =
      match s[j]? with
      | none => .error .indexError
      | some c =>
        if c = bsl then .ok (some (.str (a ++ pySlice s j (j + 2)), j + 2))
        else .ok (some (.str (a ++ [c]), j + 1)) := by
  rcases hk with rfl | rfl <;>
  · cases hj : s[j]? with
    | none => simp [consume_next_sub_element, pyGet, hj]
    | some c =>
      by_cases hc : c = bsl <;> simp [consume_next_sub_element, pyGet, hj, hc]

/-- Invariant of the scanning loop for string tokens: on success the
accumulated value is extended by exactly the verbatim slice from the
loop position to the position where the closing delimiter was found. -/
theorem consume_until_loop_str_value (kind : DelimKind)
    (hk : kind = .strK ∨ kind = .mlsK) :
    ∀ (fuel : Nat) (s : Str) (start j : Nat) (acc v : Str) (jf : Nat),
      consume_until_loop fuel kind s start j (.str acc) = .ok (jf, .str v) →
      ∃ jEnd, jf = jEnd + (delimClose kind).length ∧
        match_ignore_text s jEnd (delimClose kind) = some jf ∧
        j ≤ jEnd ∧ v = acc ++ pySlice s j jEnd := by
  intro fuel
  induction fuel with
  | zero =>
    intro s start j acc v jf h
    simp [consume_until_loop] at h
  | succ f ih =>
    intro s start j acc v jf h
    rw [consume_until_loop] at h
    by_cases hcond : (j : Int) ≤ (s.length : Int) - ((delimClose kind).length : Int)
    · rw [if_pos hcond] at h
      cases hm : match_ignore_text s j (delimClose kind) with
      | some x =>
        simp only [hm] at h
        injection h with h1
        injection h1 with hjf hv
        injection hv with hv
        refine ⟨j, hjf.symm, ?_, Nat.le_refl _, ?_⟩
        · have := match_ignore_text_some.mp hm
          rw [hm, this.1, hjf]
        · rw [pySlice_self, ← hv]
          simp
      | none =>
        simp only [hm] at h
        cases f with
        | zero => simp [consume_next_sub_element] at h
        | succ f2 =>
          rw [consume_next_sub_element_str f2 kind hk] at h
          cases hj : s[j]? with
          | none => simp only [hj] at h; simp at h
          | some c =>
            simp only [hj] at h
            by_cases hc : c = bsl
            · rw [if_pos hc] at h
              simp only [except_bind_ok] at h
              rw [if_neg (by omega)] at h
              obtain ⟨jEnd, h1, h2, h3, h4⟩ := ih s start (j + 2) _ v jf h
              refine ⟨jEnd, h1, h2, by omega, ?_⟩
              rw [h4, List.append_assoc]
              rw [pySlice_append_slice (by omega) h3]
            · rw [if_neg hc] at h
              simp only [except_bind_ok] at h
              rw [if_neg (by omega)] at h
              obtain ⟨jEnd, h1, h2, h3, h4⟩ := ih s start (j + 1) _ v jf h
              refine ⟨jEnd, h1, h2, by omega, ?_⟩
              rw [h4, List.append_assoc]
              rw [← pySlice_singleton hj]
              rw [pySlice_append_slice (by omega) h3]
    · rw [if_neg hcond] at h
      exact Except.noConfusion h

/-- C3: for every String or MultiLineString token whose consume
succeeds, the parsed value is exactly the raw characters between the
delimiters, copied verbatim (no escape decoding): the value equals the
slice of the input from just after the opening delimiter to just before
the closing one. -/
theorem c3_string_value_is_verbatim_slice (fuel : Nat) (s : Str) (i jf : Nat)
    (v : Str) :
    (token_consume fuel .strK s i = .ok (some (jf, .str v)) →
      v = pySlice s (i + 1) (jf - 1)) ∧
    (token_consume fuel .mlsK s i = .ok (some (jf, .str v)) →
      v = pySlice s (i + 3) (jf - 3)) := by
  constructor
  · intro h
    cases fuel with
    | zero => simp [token_consume] at h
    | succ f =>
      rw [token_consume] at h
      cases hm : match_ignore_text s i (delimOpen .strK) with
      | none => rw [hm] at h; simp at h
      | some index =>
        rw [hm] at h
        have hidx : index = i + 1 := by
          have := match_ignore_text_some.mp hm
          simpa [delimOpen] using this.1
        cases f with
        | zero => simp [consume_until_end_seq] at h
        | succ f2 =>
          simp only [consume_until_end_seq, initValue] at h
          cases hr : consume_until_loop f2 .strK s index index (.str []) with
          | error e => rw [hr] at h; simp at h
          | ok r =>
            rw [hr] at h
            obtain ⟨jf2, v2⟩ := r
            cases v2 with
            | str v2 =>
              simp only [except_bind_ok, except_pure, Except.ok.injEq,
                Option.some_inj, Prod.mk.injEq, CsonValue.str.injEq] at h
              obtain ⟨h1a, h1b⟩ := h
              rw [← h1a, ← h1b]
              obtain ⟨jEnd, h1, h2, h3, h4⟩ :=
                consume_until_loop_str_value .strK (Or.inl rfl) f2 s index index [] v2 jf2 hr
              rw [h4, hidx]
              simp only [delimClose] at h1
              rw [show jf2 - 1 = jEnd from by simp at h1; omega]
              simp
            | num l => simp at h
            | bool b => simp at h
            | list xs => simp at h
            | dict m => simp at h
  · intro h
    cases fuel with
    | zero => simp [token_consume] at h
    | succ f =>
      rw [token_consume] at h
      cases hm : match_ignore_text s i (delimOpen .mlsK) with
      | none => rw [hm] at h; simp at h
      | some index =>
        rw [hm] at h
        have hidx : index = i + 3 := by
          have := match_ignore_text_some.mp hm
          simpa [delimOpen] using this.1
        cases f with
        | zero => simp [consume_until_end_seq] at h
        | succ f2 =>
          simp only [consume_until_end_seq, initValue] at h
          cases hr : consume_until_loop f2 .mlsK s index index (.str []) with
          | error e => rw [hr] at h; simp at h
          | ok r =>
            rw [hr] at h
            obtain ⟨jf2, v2⟩ := r
            cases v2 with
            | str v2 =>
              simp only [except_bind_ok, except_pure, Except.ok.injEq,
                Option.some_inj, Prod.mk.injEq, CsonValue.str.injEq] at h
              obtain ⟨h1a, h1b⟩ := h
              rw [← h1a, ← h1b]
              obtain ⟨jEnd, h1, h2, h3, h4⟩ :=
                consume_until_loop_str_value .mlsK (Or.inr rfl) f2 s index index [] v2 jf2 hr
              rw [h4, hidx]
              simp only [delimClose] at h1
              rw [show jf2 - 3 = jEnd from by simp at h1; omega]
              simp
            | num l => simp at h
            | bool b => simp at h
            | list xs => simp at h
            | dict m => simp at h

/-- C3 (witness): the theorem applied to the string token
`"a\"b"` (opening quote at 0, closing at 5): its value is the verbatim
slice `a\"b`, backslash kept, escaped quote not terminating the token. -/
theorem c3_string_value_witness :
    ('a' :: bsl :: dq :: 'b' :: []) =
      pySlice (dq :: 'a' :: bsl :: dq :: 'b' :: dq :: []) (0 + 1) (6 - 1) :=
  (c3_string_value_is_verbatim_slice 50 (dq :: 'a' :: bsl :: dq :: 'b' :: dq :: [])
    0 6 ('a' :: bsl :: dq :: 'b' :: [])).1 rfl

/-- `number_final` can only succeed or raise Broken-token. -/
theorem number_final_ne_indexError (s : Str) (a b : Nat) :
    number_final s a b ≠ .error .indexError := by
  unfold number_final
  repeat' split
  all_goals simp

/-- C9: `CSON_NumberToken.consume` and `CSON_BooleanToken.consume` read
`str_input[start_index]` unguarded, so with `start_index = len(str_input)`
they raise `IndexError` instead of returning no-match; with
`start_index < len(str_input)` they never raise `IndexError`; and the
dispatcher protects them by raising Premature-end-of-input whenever the
whitespace skip reaches the end of input, before any candidate is
tried. -/
theorem c9_unguarded_reads_and_dispatcher_guard (s : Str) :
    (number_consume s s.length = .error .indexError) ∧
    (boolean_consume s s.length = .error .indexError) ∧
    (∀ fuel i, s.length ≤ ignore_whitespace s i →
      cson_gen_next_token (fuel + 1) s i = .error .prematureEnd) ∧
    (∀ i, i < s.length →
      number_consume s i ≠ .error .indexError ∧
      boolean_consume s i ≠ .error .indexError) := by
  have hend : s[s.length]? = none := List.getElem?_eq_none_iff.mpr (Nat.le_refl _)
  refine ⟨?_, ?_, ?_, ?_⟩
  · simp [number_consume, pyGet, hend]
  · simp [boolean_consume, pyGet, hend]
  · intro fuel i h
    rw [cson_gen_next_token]
    simp only [if_pos h]
  · intro i hi
    obtain ⟨c, hc⟩ : ∃ c, s[i]? = some c := by
      cases hcc : s[i]? with
      | none => exact absurd (List.getElem?_eq_none_iff.mp hcc) (by omega)
      | some c => exact ⟨c, rfl⟩
    constructor
    · unfold number_consume
      simp only [pyGet, hc, except_bind_ok]
      repeat' split
      all_goals first
        | apply number_final_ne_indexError
        | simp
    · unfold boolean_consume
      simp only [pyGet, hc, except_bind_ok]
      repeat' split
      all_goals simp

/-- C9 (witness): on the empty string, both consumes raise IndexError at
start index 0 (= the length) while the dispatcher raises
Premature-end-of-input; and at an in-bounds index no IndexError
occurs. -/
theorem c9_witness :
    number_consume [] 0 = .error .indexError ∧
    boolean_consume [] 0 = .error .indexError ∧
    cson_gen_next_token 50 [] 0 = .error .prematureEnd ∧
    number_consume ['5'] 0 ≠ .error .indexError := by
  refine ⟨(c9_unguarded_reads_and_dispatcher_guard []).1,
    (c9_unguarded_reads_and_dispatcher_guard []).2.1, ?_, ?_⟩
  · exact (c9_unguarded_reads_and_dispatcher_guard []).2.2.1 49 0 (by decide)
  · exact ((c9_unguarded_reads_and_dispatcher_guard ['5']).2.2.2 0 (by decide)).1

/-- C10: in the delimited scan the closing-delimiter check happens at
the current position before any whitespace skipping, so only a `[`
immediately followed by `]` yields an empty list.  For every list whose
brackets enclose only whitespace (one or more spaces), consuming raises
Unknown-token at the position of the `]` (reached by the dispatcher's
whitespace skip), while `[]` itself yields the empty list. -/
theorem c10_whitespace_only_list_unknown_token :
    (∀ (m fuel : Nat),
      token_consume (fuel + 7) .listK ('[' :: (List.replicate (m + 1) ' ' ++ [']'])) 0 =
        .error (.unknownToken (m + 2))) ∧
    token_consume 50 .listK ('[' :: ']' :: []) 0 = .ok (some (2, .list [])) := by
  constructor
  · intro m fuel
    set s : Str := '[' :: (List.replicate (m + 1) ' ' ++ [']']) with hs
    have hlen : s.length = m + 3 := by simp [hs]
    -- the whitespace skip from position 1 stops at the closing bracket
    have hws : ignore_whitespace s 1 = m + 2 := by
      have h := scan_while_append py_isspace ['['] (List.replicate (m + 1) ' ') [']']
        (fun c hc => by rw [List.eq_of_mem_replicate hc]; decide)
        (Or.inr ⟨']', [], rfl, by decide⟩)
      have h' : scan_while py_isspace ('[' :: (List.replicate (m + 1) ' ' ++ [']'])) 1
          = 1 + (m + 1) := by simpa using h
      rw [show (1 : Nat) + (m + 1) = m + 2 from by omega] at h'
      unfold ignore_whitespace
      rw [hs]
      exact h' 
    -- the character at that position
    have hat : s[m + 2]? = some ']' := by
      have h := getElem?_at_append ('[' :: List.replicate (m + 1) ' ') ']' []
      rw [show ('[' :: List.replicate (m + 1) ' ') ++ (']' :: []) = s from by simp [hs]]
        at h
      simpa using h
    -- no delimited candidate opens at `]`
    have hnodelim : ∀ kind : DelimKind, ∀ f : Nat,
        token_consume (f + 1) kind s (m + 2) = .ok none := by
      intro kind f
      rw [token_consume]
      have hnone : match_ignore_text s (m + 2) (delimOpen kind) = none := by
        cases kind <;>
          exact match_ignore_text_none_of_head hat rfl (by decide)
      simp only [hnone, except_pure]
    -- neither leaf candidate matches at `]`
    have hnonum : number_consume s (m + 2) = .ok none := by
      unfold number_consume
      simp [pyGet, hat, py_isnumeric]
    have hnobool : boolean_consume s (m + 2) = .ok none := by
      unfold boolean_consume
      simp [pyGet, hat]
    -- the dispatcher at position 1 skips the whitespace and fails
    have hgen : cson_gen_next_token (fuel + 3) s 1 = .error (.unknownToken (m + 2)) := by
      rw [cson_gen_next_token]
      rw [hws]
      rw [if_neg (by omega)]
      simp only [hnodelim, hnonum, hnobool, except_bind_ok]
    -- one list sub-element consumption propagates the error
    have hsub : consume_next_sub_element (fuel + 4) .listK s 1 (.list []) =
        .error (.unknownToken (m + 2)) := by
      rw [consume_next_sub_element]
      simp only [hgen, except_bind_error]
    -- the scanning loop: `]` is not at position 1 (a space is), so the
    -- sub-element is consulted and its error propagates
    have hloop : consume_until_loop (fuel + 5) .listK s 1 1 (.list []) =
        .error (.unknownToken (m + 2)) := by
      rw [consume_until_loop]
      rw [if_pos (by simp only [hlen, delimClose, List.length_cons, List.length_nil]; omega)]
      have h1 : s[1]? = some ' ' := by simp [hs, List.replicate_succ]
      have hnomatch : match_ignore_text s 1 (delimClose .listK) = none :=
        match_ignore_text_none_of_head h1 rfl (by decide)
      simp only [delimClose] at hnomatch
      simp only [delimClose, hnomatch, hsub, except_bind_error]
    -- the opening bracket matches at position 0
    have hopen : match_ignore_text s 0 (delimOpen .listK) = some 1 := by
      rw [match_ignore_text]
      rw [if_pos ⟨by simp [delimOpen]; omega, by simp [hs, delimOpen, pySlice]⟩]
      simp [delimOpen]
    rw [token_consume]
    simp only [hopen, consume_until_end_seq, initValue, hloop, except_bind_error]
  · rfl

/-- On success the scanning loop has necessarily matched the closing
sequence just before the returned position (holds for every token
kind, regardless of the sub-element semantics). -/
theorem consume_until_loop_close_found :
    ∀ (fuel : Nat) (kind : DelimKind) (s : Str) (start j : Nat) (acc : CsonValue)
      (jf : Nat) (v : CsonValue),
      consume_until_loop fuel kind s start j acc = .ok (jf, v) →
      ∃ j0, jf = j0 + (delimClose kind).length ∧
        match_ignore_text s j0 (delimClose kind) = some jf := by
  intro fuel
  induction fuel with
  | zero =>
    intro kind s start j acc jf v h
    simp [consume_until_loop] at h
  | succ f ih =>
    intro kind s start j acc jf v h
    rw [consume_until_loop] at h
    by_cases hcond : (j : Int) ≤ (s.length : Int) - ((delimClose kind).length : Int)
    · rw [if_pos hcond] at h
      cases hm : match_ignore_text s j (delimClose kind) with
      | some x =>
        simp only [hm] at h
        injection h with h1
        injection h1 with hjf hv
        refine ⟨j, hjf.symm, ?_⟩
        have := match_ignore_text_some.mp hm
        rw [hm, this.1, hjf]
      | none =>
        simp only [hm] at h
        cases hsub : consume_next_sub_element f kind s j acc with
        | error e => rw [hsub] at h; simp at h
        | ok r =>
          rw [hsub] at h
          cases r with
          | none => simp at h
          | some p =>
            obtain ⟨acc2, j2⟩ := p
            simp only [except_bind_ok] at h
            by_cases hz : j2 = 0
            · rw [if_pos hz] at h
              exact Except.noConfusion h
            · rw [if_neg hz] at h
              exact ih kind s start j2 acc2 jf v h
    · rw [if_neg hcond] at h
      exact Except.noConfusion h

/-- C6 (counterexample): consuming the unterminated string `"price`
raises Delimiter-not-found carrying the missing closing quote together
with index 1 — the position immediately after the opening delimiter —
not the opening position 0 the claim names. -/
theorem c6_counterexample_carried_index :
    token_consume 50 .strK (dq :: "price".toList) 0 =
      .error (.delimiterNotFound [dq] 1) ∧
    token_consume 50 .strK (dq :: "price".toList) 0 ≠
      .error (.delimiterNotFound [dq] 0) := by
  refine ⟨rfl, ?_⟩
  intro h
  rw [show token_consume 50 .strK (dq :: "price".toList) 0 =
    .error (.delimiterNotFound [dq] 1) from rfl] at h
  simp at h

/-- C6 (amended): a delimited token is never silently truncated — if its
consume succeeds, the closing sequence was matched right before the
returned position; and when the scanning loop exhausts the input without
finding the closing sequence it raises Delimiter-not-found carrying that
sequence and the loop's start position, which is the position
immediately after the opening delimiter (e.g. 1 for `"price`, whose
opening quote is at 0). -/
theorem c6_delimiter_not_found_on_exhaustion :
    (∀ (fuel : Nat) (kind : DelimKind) (s : Str) (i jf : Nat) (v : CsonValue),
      token_consume fuel kind s i = .ok (some (jf, v)) →
      ∃ j0, jf = j0 + (delimClose kind).length ∧
        match_ignore_text s j0 (delimClose kind) = some jf) ∧
    (∀ (fuel : Nat) (kind : DelimKind) (s : Str) (start j : Nat) (acc : CsonValue),
      ((s.length : Int) - ((delimClose kind).length : Int) < (j : Int)) →
      consume_until_loop (fuel + 1) kind s start j acc =
        .error (.delimiterNotFound (delimClose kind) start)) ∧
    token_consume 50 .strK (dq :: "price".toList) 0 =
      .error (.delimiterNotFound [dq] 1) := by
  refine ⟨?_, ?_, rfl⟩
  · intro fuel kind s i jf v h
    cases fuel with
    | zero => simp [token_consume] at h
    | succ f =>
      rw [token_consume] at h
      cases hm : match_ignore_text s i (delimOpen kind) with
      | none => simp only [hm, except_pure] at h; simp at h
      | some index =>
        simp only [hm] at h
        cases f with
        | zero => simp [consume_until_end_seq] at h
        | succ f2 =>
          simp only [consume_until_end_seq] at h
          cases hr : consume_until_loop f2 kind s index index (initValue kind) with
          | error e => rw [hr] at h; simp at h
          | ok r =>
            rw [hr] at h
            obtain ⟨jf2, v2⟩ := r
            simp only [except_bind_ok, except_pure, Except.ok.injEq,
              Option.some_inj, Prod.mk.injEq] at h
            obtain ⟨h1, h2⟩ := h
            rw [← h1]
            exact consume_until_loop_close_found f2 kind s index index
              (initValue kind) jf2 v2 hr
  · intro fuel kind s start j acc hcond
    rw [consume_until_loop]
    rw [if_neg (by omega)]

/-- C6 (witness): the success half applied to the string `"a"` (close
found at 2, next position 3), and the exhaustion half applied
concretely. -/
theorem c6_witness :
    (∃ j0, 3 = j0 + (delimClose .strK).length ∧
      match_ignore_text (dq :: 'a' :: dq :: []) j0 (delimClose .strK) = some 3) ∧
    consume_until_loop 50 .strK (dq :: "price".toList) 1 7 (.str "price".toList) =
      .error (.delimiterNotFound (delimClose .strK) 1) := by
  constructor
  · exact (c6_delimiter_not_found_on_exhaustion).1 50 .strK (dq :: 'a' :: dq :: [])
      0 3 (.str ['a']) rfl
  · exact (c6_delimiter_not_found_on_exhaustion).2.1 49 .strK (dq :: "price".toList)
      1 7 (.str "price".toList) (by decide)

/-- C4 (counterexample): the claim's example is wrong: consuming
`[1, 2]` as a list raises Broken-token at index 1 (the Number candidate
commits to `1` and then sees the comma, which may not follow a number),
not Unknown-token at the comma (index 2). -/
theorem c4_counterexample_comma_list :
    token_consume 50 .listK ("[1, 2]".toList) 0 = .error (.brokenToken 1) ∧
    token_consume 50 .listK ("[1, 2]".toList) 0 ≠ .error (.unknownToken 2) := by
  refine ⟨rfl, ?_⟩
  intro h
  rw [show token_consume 50 .listK ("[1, 2]".toList) 0 =
    .error (.brokenToken 1) from rfl] at h
  simp at h

/-- C4 (amended): the dispatcher, after skipping leading whitespace,
raises Premature-end-of-input at end of input; otherwise tries the
candidates in the fixed order List, Dict, String, MultiLineString,
Number, Boolean (`candidate_consume`), returns the first success, lets
any error of a candidate propagate immediately without consulting later
candidates, and raises Unknown-token at the skipped position when every
candidate returns no-match (e.g. at the comma of `["" , 10]`; the
claim's own example `[1, 2]` instead commits to the number `1` and
raises Broken-token). -/
theorem c4_dispatcher_order_and_errors :
    (∀ (fuel : Nat) (s : Str) (i : Nat), s.length ≤ ignore_whitespace s i →
      cson_gen_next_token (fuel + 1) s i = .error .prematureEnd) ∧
    (∀ (fuel : Nat) (s : Str) (i k : Nat),
      ignore_whitespace s i < s.length → k ≤ 5 →
      (∀ k2, k2 < k → candidate_consume fuel k2 s (ignore_whitespace s i) = .ok none) →
      (∀ r, candidate_consume fuel k s (ignore_whitespace s i) = .ok (some r) →
        cson_gen_next_token (fuel + 1) s i = .ok r) ∧
      (∀ e, candidate_consume fuel k s (ignore_whitespace s i) = .error e →
        cson_gen_next_token (fuel + 1) s i = .error e)) ∧
    (∀ (fuel : Nat) (s : Str) (i : Nat),
      ignore_whitespace s i < s.length →
      (∀ k, k ≤ 5 → candidate_consume fuel k s (ignore_whitespace s i) = .ok none) →
      cson_gen_next_token (fuel + 1) s i =
        .error (.unknownToken (ignore_whitespace s i))) ∧
    token_consume 50 .listK ('[' :: dq :: dq :: " , 10]".toList) 0 =
      .error (.unknownToken 4) := by
  refine ⟨?_, ?_, ?_, rfl⟩
  · intro fuel s i h
    rw [cson_gen_next_token]
    simp only [if_pos h]
  · intro fuel s i k hlt hk5 hprev
    interval_cases k
    · constructor
      · intro r hr
        simp only [candidate_consume] at hr
        rw [cson_gen_next_token, if_neg (by omega)]
        simp only [hr, except_bind_ok, except_pure]
      · intro e he
        simp only [candidate_consume] at he
        rw [cson_gen_next_token, if_neg (by omega)]
        simp only [he, except_bind_error]
    · have h0 := hprev 0 (by omega)
      simp only [candidate_consume] at h0
      constructor
      · intro r hr
        simp only [candidate_consume] at hr
        rw [cson_gen_next_token, if_neg (by omega)]
        simp only [h0, hr, except_bind_ok, except_pure]
      · intro e he
        simp only [candidate_consume] at he
        rw [cson_gen_next_token, if_neg (by omega)]
        simp only [h0, he, except_bind_ok, except_bind_error]
    · have h0 := hprev 0 (by omega)
      have h1 := hprev 1 (by omega)
      simp only [candidate_consume] at h0 h1
      constructor
      · intro r hr
        simp only [candidate_consume] at hr
        rw [cson_gen_next_token, if_neg (by omega)]
        simp only [h0, h1, hr, except_bind_ok, except_pure]
      · intro e he
        simp only [candidate_consume] at he
        rw [cson_gen_next_token, if_neg (by omega)]
        simp only [h0, h1, he, except_bind_ok, except_bind_error]
    · have h0 := hprev 0 (by omega)
      have h1 := hprev 1 (by omega)
      have h2 := hprev 2 (by omega)
      simp only [candidate_consume] at h0 h1 h2
      constructor
      · intro r hr
        simp only [candidate_consume] at hr
        rw [cson_gen_next_token, if_neg (by omega)]
        simp only [h0, h1, h2, hr, except_bind_ok, except_pure]
      · intro e he
        simp only [candidate_consume] at he
        rw [cson_gen_next_token, if_neg (by omega)]
        simp only [h0, h1, h2, he, except_bind_ok, except_bind_error]
    · have h0 := hprev 0 (by omega)
      have h1 := hprev 1 (by omega)
      have h2 := hprev 2 (by omega)
      have h3 := hprev 3 (by omega)
      simp only [candidate_consume] at h0 h1 h2 h3
      constructor
      · intro r hr
        simp only [candidate_consume] at hr
        rw [cson_gen_next_token, if_neg (by omega)]
        simp only [h0, h1, h2, h3, hr, except_bind_ok, except_pure]
      · intro e he
        simp only [candidate_consume] at he
        rw [cson_gen_next_token, if_neg (by omega)]
        simp only [h0, h1, h2, h3, he, except_bind_ok, except_bind_error]
    · have h0 := hprev 0 (by omega)
      have h1 := hprev 1 (by omega)
      have h2 := hprev 2 (by omega)
      have h3 := hprev 3 (by omega)
      have h4 := hprev 4 (by omega)
      simp only [candidate_consume] at h0 h1 h2 h3 h4
      constructor
      · intro r hr
        simp only [candidate_consume] at hr
        rw [cson_gen_next_token, if_neg (by omega)]
        simp only [h0, h1, h2, h3, h4, hr, except_bind_ok, except_pure]
      · intro e he
        simp only [candidate_consume] at he
        rw [cson_gen_next_token, if_neg (by omega)]
        simp only [h0, h1, h2, h3, h4, he, except_bind_ok, except_bind_error]
  · intro fuel s i hlt hall
    have h0 := hall 0 (by omega)
    have h1 := hall 1 (by omega)
    have h2 := hall 2 (by omega)
    have h3 := hall 3 (by omega)
    have h4 := hall 4 (by omega)
    have h5 := hall 5 (by omega)
    simp only [candidate_consume] at h0 h1 h2 h3 h4 h5
    rw [cson_gen_next_token, if_neg (by omega)]
    simp only [h0, h1, h2, h3, h4, h5, except_bind_ok]

/-- C4 (witness): the amended theorem applied concretely: empty input
gives Premature-end-of-input; `5` is found by the Number candidate after
the four delimited candidates returned no-match; the Broken-token of
`5.` propagates unchanged; and on `,` every candidate returns no-match,
giving Unknown-token at position 0. -/
theorem c4_dispatcher_witness :
    cson_gen_next_token 50 ([] : Str) 0 = .error .prematureEnd ∧
    cson_gen_next_token 50 ("5".toList) 0 = .ok (1, .num ['5']) ∧
    cson_gen_next_token 50 ("5.".toList) 0 = .error (.brokenToken 0) ∧
    cson_gen_next_token 50 (",".toList) 0 = .error (.unknownToken 0) := by
  refine ⟨?_, ?_, ?_, ?_⟩
  · exact c4_dispatcher_order_and_errors.1 49 [] 0 (by decide)
  · exact (c4_dispatcher_order_and_errors.2.1 49 ("5".toList) 0 4 (by decide)
      (by omega) (fun k2 hk2 => by interval_cases k2 <;> rfl)).1 (1, .num ['5']) rfl
  · exact (c4_dispatcher_order_and_errors.2.1 49 ("5.".toList) 0 4 (by decide)
      (by omega) (fun k2 hk2 => by interval_cases k2 <;> rfl)).2 (.brokenToken 0) rfl
  · exact c4_dispatcher_order_and_errors.2.2.1 49 (",".toList) 0 (by decide)
      (fun k hk => by interval_cases k <;> rfl)

/-- Keys of a Python-dict insertion: every key of the result is an old
key or the inserted key. -/
theorem mem_keys_pyDictInsert :
    ∀ (m : List (Str × CsonValue)) (k : Str) (v : CsonValue) (x : Str),
      x ∈ (pyDictInsert m k v).map Prod.fst → x ∈ m.map Prod.fst ∨ x = k := by
  intro m k v
  induction m with
  | nil =>
    intro x hx
    simp [pyDictInsert] at hx
    exact Or.inr hx
  | cons p rest ih =>
    obtain ⟨k0, v0⟩ := p
    intro x hx
    by_cases hk : k0 = k
    · rw [pyDictInsert, if_pos hk] at hx
      simp only [List.map_cons, List.mem_cons] at hx
      rcases hx with rfl | hx
      · exact Or.inl (by simp)
      · exact Or.inl (by simp [hx])
    · rw [pyDictInsert, if_neg hk] at hx
      simp only [List.map_cons, List.mem_cons] at hx
      rcases hx with rfl | hx
      · exact Or.inl (by simp)
      · rcases ih x hx with h | h
        · exact Or.inl (by simp [h])
        · exact Or.inr h

/-- C7: Python-dict binding semantics and list building of the parser:
(1) binding a key overwrites: after `pyDictInsert m k v` (the model of
`self.value[key] = value`) the key `k` maps to `v`, and no error is ever
raised on a duplicate key (the operation is total);
(2) insertion preserves key uniqueness;
(3) a list sub-element is always appended at the END of the accumulated
list, so element order follows textual order;
(4) concretely, a document binding `a` twice yields the LAST value with
no error, and `[1 2 3]` parses to the values 1.0, 2.0, 3.0 in textual
order. -/
theorem c7_dict_last_write_wins_and_list_order :
    (∀ (m : List (Str × CsonValue)) (k : Str) (v : CsonValue),
      pyDictLookup (pyDictInsert m k v) k = some v) ∧
    (∀ (m : List (Str × CsonValue)) (k : Str) (v : CsonValue),
      (m.map Prod.fst).Nodup → ((pyDictInsert m k v).map Prod.fst).Nodup) ∧
    (∀ (fuel : Nat) (s : Str) (i : Nat) (xs : List CsonValue) (r : CsonValue × Nat),
      consume_next_sub_element (fuel + 1) .listK s i (.list xs) = .ok (some r) →
      ∃ v j, r = (.list (xs ++ [v]), j)) ∧
    parse_cson 50 ("a: 1\na: 2".toList) = .ok [(['a'], .num ['2'])] ∧
    token_consume 50 .listK ("[1 2 3]".toList) 0 =
      .ok (some (7, .list [.num ['1'], .num ['2'], .num ['3']])) := by
  refine ⟨?_, ?_, ?_, rfl, rfl⟩
  · intro m k v
    induction m with
    | nil => simp [pyDictInsert, pyDictLookup]
    | cons p rest ih =>
      obtain ⟨k0, v0⟩ := p
      by_cases hk : k0 = k
      · rw [pyDictInsert, if_pos hk, pyDictLookup, if_pos hk]
      · rw [pyDictInsert, if_neg hk, pyDictLookup, if_neg hk]
        exact ih
  · intro m k v
    induction m with
    | nil =>
      intro _
      simp [pyDictInsert]
    | cons p rest ih =>
      obtain ⟨k0, v0⟩ := p
      intro hn
      simp only [List.map_cons, List.nodup_cons] at hn
      by_cases hk : k0 = k
      · rw [pyDictInsert, if_pos hk]
        simp only [List.map_cons, List.nodup_cons]
        exact hn
      · rw [pyDictInsert, if_neg hk]
        simp only [List.map_cons, List.nodup_cons]
        refine ⟨?_, ih hn.2⟩
        intro hmem
        rcases mem_keys_pyDictInsert rest k v k0 hmem with h | h
        · exact hn.1 h
        · exact hk h
  · intro fuel s i xs r h
    rw [consume_next_sub_element] at h
    cases hg : cson_gen_next_token fuel s i with
    | error e => rw [hg] at h; simp at h
    | ok p =>
      obtain ⟨j, v⟩ := p
      rw [hg] at h
      simp only [except_bind_ok, except_pure, Except.ok.injEq, Option.some_inj] at h
      exact ⟨v, ignore_whitespace s j, h.symm⟩

/-- C7 (witness): re-binding key `a` overwrites its value; inserting a
fresh key keeps the keys unique; one list sub-element step on `[1 2]`
appends the parsed `1` at the end of the empty accumulator. -/
theorem c7_witness :
    pyDictLookup (pyDictInsert [(['a'], .num ['1'])] ['a'] (.num ['2'])) ['a'] =
      some (.num ['2']) ∧
    ((pyDictInsert [(['a'], CsonValue.num ['1'])] ['b'] (.num ['3'])).map
      Prod.fst).Nodup ∧
    ∃ v j, ((CsonValue.list [CsonValue.num ['1']], 3) : CsonValue × Nat) =
      (.list ([] ++ [v]), j) := by
  refine ⟨?_, ?_, ?_⟩
  · exact c7_dict_last_write_wins_and_list_order.1 [(['a'], .num ['1'])] ['a']
      (.num ['2'])
  · exact c7_dict_last_write_wins_and_list_order.2.1 [(['a'], .num ['1'])] ['b']
      (.num ['3']) (by simp)
  · exact c7_dict_last_write_wins_and_list_order.2.2.1 48 ("[1 2]".toList) 1 []
      (.list [.num ['1']], 3) rfl
